import Mathlib

/-!
# Verification of the `google/go-intervals` modular-interval core

This file gives a shallow embedding, in Lean 4, of the parts of the
`google/go-intervals` repository that the verified claims talk about:

* the `modinterval` package (`Modulus`, `IntInterval`, `RealIntInterval`
  and their operations), translated from `modinterval/modinterval.go`;
* the `span` interval type of the `intervalset` package's test file
  (`Intersect`, `Before`, `IsZero`, `Bisect`).

Modelling conventions:

* Go `int` is modelled as `Int`.  None of the verified properties depend on
  64-bit overflow, and the spec describes the arithmetic over mathematical
  integers.
* Go's `%` operator is the truncated-division remainder; it is modelled by
  `Int.tmod`.  In Go, evaluating `a % 0` causes a run-time panic
  ("integer divide by zero"); `Int.tmod a 0 = a` in Lean, so the one place
  where a zero modulus can reach a `%` (interval construction) models that
  panic explicitly, and every other theorem assumes a positive modulus.
* A Go function that can panic is modelled as returning `Option`, with
  `none` for the panic.
-/

namespace GoIntervals

/-! ## Modulus (modinterval.go)

`type Modulus int` is modelled as a plain `Int` argument `m`. -/

/-- `func (m Modulus) GoModulo(a int) int { return a % m.Int() }`.

Go's `%` is the truncated-division remainder (`Int.tmod`).  For `m = 0`,
Go panics at run time while `Int.tmod a 0 = a`; all theorems about
`GoModulo` and its callers therefore carry a `0 < m` (or validity)
hypothesis, except for interval construction, which models the panic. -/
def GoModulo (m a : Int) : Int := Int.tmod a m

/-- `func (m Modulus) ArrayOffset(position int) int`:

    maybeNegative := m.GoModulo(position)
    if maybeNegative < 0 { return maybeNegative + m.Int() }
    return maybeNegative
-/
def ArrayOffset (m position : Int) : Int :=
  let maybeNegative := GoModulo m position
  if maybeNegative < 0 then maybeNegative + m else maybeNegative

/-- `func intMin(a, b int) int`. -/
def intMin (a b : Int) : Int := if a < b then a else b

/-- `func intMax(a, b int) int`. -/
def intMax (a b : Int) : Int := if a > b then a else b

/-- `func forwardDistance(m Modulus, a, b int) int`:

    if b < a { b += m.Int() }
    return b - a
-/
def forwardDistance (m a b : Int) : Int :=
  if b < a then b + m - a else b - a

/-- `func (m Modulus) IntervalSizeForward(a, b int) int`. -/
def IntervalSizeForward (m a b : Int) : Int :=
  forwardDistance m (ArrayOffset m a) (ArrayOffset m b)

/-- `func (m Modulus) IntervalSizeMin(a, b int) int`. -/
def IntervalSizeMin (m a b : Int) : Int :=
  let a := ArrayOffset m a
  let b := ArrayOffset m b
  intMin (forwardDistance m a b) (forwardDistance m b a)

/-! ## RealIntInterval (modinterval.go) -/

/-- `type RealIntInterval struct { start, size int }` — an integer interval
that does not use modular arithmetic. -/
structure RealIntInterval where
  start : Int
  size : Int
deriving DecidableEq

/-- `func RealEmpty() RealIntInterval { return RealIntInterval{} }` -/
def RealEmpty : RealIntInterval := ⟨0, 0⟩

/-- `func RealFromStartSize(start, size int) RealIntInterval`. -/
def RealFromStartSize (start size : Int) : RealIntInterval := ⟨start, size⟩

/-- `func (r RealIntInterval) Start() int { return r.start }` -/
def RealIntInterval.Start (r : RealIntInterval) : Int := r.start

/-- `func (r RealIntInterval) Size() int { return r.size }` -/
def RealIntInterval.Size (r : RealIntInterval) : Int := r.size

/-- `func (r RealIntInterval) End() int { return r.start + r.size }` -/
def RealIntInterval.End (r : RealIntInterval) : Int := r.start + r.size

/-- `func (r RealIntInterval) IsEmpty() bool { return r.Size() == 0 }` -/
def RealIntInterval.IsEmpty (r : RealIntInterval) : Bool := decide (r.Size = 0)

/-- `func (r RealIntInterval) Contains(i int) bool`:

    return r.Start() <= i && i < r.End()
-/
def RealIntInterval.Contains (r : RealIntInterval) (i : Int) : Bool :=
  decide (r.Start ≤ i ∧ i < r.End)

/-- `func (r RealIntInterval) Intersection(other RealIntInterval) RealIntInterval`:

    start := intMax(r.Start(), other.Start())
    end := intMax(r.End(), other.End())
    if end <= start { return RealEmpty() }
    return RealFromStartSize(start, end-start)

Note: the source really computes the `end` bound with `intMax`. -/
def RealIntInterval.Intersection (r other : RealIntInterval) : RealIntInterval :=
  let start := intMax r.Start other.Start
  let e := intMax r.End other.End
  if e ≤ start then RealEmpty else RealFromStartSize start (e - start)

/-- Modelled from the spec (§9, open question): the conventional intersection
the spec directs implementers to use, `start = max(a.start, b.start)`,
`end = min(a.end, b.end)`, empty when `end ≤ start`.  This definition follows
the spec's words, for comparison against the source's `Intersection`. -/
def RealIntersectionSpec (r other : RealIntInterval) : RealIntInterval :=
  let start := intMax r.Start other.Start
  let e := intMin r.End other.End
  if e ≤ start then RealEmpty else RealFromStartSize start (e - start)

/-! ## IntInterval (modinterval.go) -/

/-- `type IntInterval struct { modulus Modulus; start intPos; size intSize }` -/
structure IntInterval where
  modulus : Int
  start : Int
  size : Int
deriving DecidableEq

/-- `func (iv IntInterval) Size() int { return iv.size.int() }` -/
def IntInterval.Size (iv : IntInterval) : Int := iv.size

/-- `func (iv IntInterval) Modulus() Modulus { return iv.modulus }` -/
def IntInterval.Modulus (iv : IntInterval) : Int := iv.modulus

/-- `func (iv IntInterval) Start() int { return iv.start.int() }` -/
def IntInterval.Start (iv : IntInterval) : Int := iv.start

/-- `func (iv IntInterval) End() int`:

    return iv.modulus.ArrayOffset(iv.start.int() + iv.size.int())
-/
def IntInterval.End (iv : IntInterval) : Int :=
  ArrayOffset iv.modulus (iv.start + iv.size)

/-- `func (iv IntInterval) IsEmpty() bool { return iv.size == 0 }` -/
def IntInterval.IsEmpty (iv : IntInterval) : Bool := decide (iv.size = 0)

/-- `func (iv IntInterval) IsComplete() bool`:

    return iv.Size() == iv.modulus.Int()
-/
def IntInterval.IsComplete (iv : IntInterval) : Bool :=
  decide (iv.Size = iv.modulus)

/-- `func FromStartSizeInt(m Modulus, start, size int) IntInterval`:

    if m < 0 { panic(...) }
    if size > m.Int() { size = m.Int() } else if size < 0 { panic(...) }
    return IntInterval{m, intPos(m.ArrayOffset(start)), intSize(size)}

Panics are modelled as `none`.  Besides the two explicit panics, the final
statement evaluates `m.ArrayOffset(start)`, which computes `start % 0` when
`m = 0`; in Go an integer division or remainder with a zero divisor is a
run-time panic, so `m = 0` is a third `none` case. -/
def FromStartSizeInt (m start size : Int) : Option IntInterval :=
  if m < 0 then none
  else
    let size := if size > m then m else size
    if size < 0 then none
    else if m = 0 then none
    else some ⟨m, ArrayOffset m start, size⟩

/-- `func (iv IntInterval) realIntervals() (sameStart, zeroStart RealIntInterval)`:

    if iv.IsEmpty() { return RealIntInterval{}, RealIntInterval{} }
    sameStartSize := iv.Size()
    if max := iv.modulus.Int() - iv.Start(); sameStartSize > max { sameStartSize = max }
    sameStart = RealFromStartSize(iv.Start(), sameStartSize)
    zeroStart = RealFromStartSize(0, iv.Size()-sameStartSize)
-/
def IntInterval.realIntervals (iv : IntInterval) : RealIntInterval × RealIntInterval :=
  if iv.IsEmpty then (⟨0, 0⟩, ⟨0, 0⟩)
  else
    let sameStartSize :=
      if iv.Size > iv.modulus - iv.Start then iv.modulus - iv.Start else iv.Size
    (RealFromStartSize iv.Start sameStartSize,
     RealFromStartSize 0 (iv.Size - sameStartSize))

/-- `func (iv IntInterval) RealIntervals() []RealIntInterval`:

    a, b := iv.realIntervals()
    if a.IsEmpty() && b.IsEmpty() { return []RealIntInterval{} }
    else if b.IsEmpty() { return []RealIntInterval{a} }
    return []RealIntInterval{a, b}
-/
def IntInterval.RealIntervals (iv : IntInterval) : List RealIntInterval :=
  let a := iv.realIntervals.1
  let b := iv.realIntervals.2
  if a.IsEmpty && b.IsEmpty then []
  else if b.IsEmpty then [a]
  else [a, b]

/-- `func (iv IntInterval) ContainsExactInt(i int) bool`:

    a, b := iv.realIntervals()
    return a.Contains(i) || b.Contains(i)
-/
def IntInterval.ContainsExactInt (iv : IntInterval) (i : Int) : Bool :=
  iv.realIntervals.1.Contains i || iv.realIntervals.2.Contains i

/-- `func (iv IntInterval) Contains(positionDesignator int) bool`:

    return iv.ContainsExactInt(iv.Modulus().ArrayOffset(positionDesignator))
-/
def IntInterval.Contains (iv : IntInterval) (positionDesignator : Int) : Bool :=
  iv.ContainsExactInt (ArrayOffset iv.Modulus positionDesignator)

/-- `func (iv IntInterval) ExpandStart(positionDesignator ...int) IntInterval`:

    if iv.IsComplete() || len(positionDesignator) == 0 { return iv }
    minStart := iv.start.int()
    for _, val := range positionDesignator {
      offset := iv.Modulus().ArrayOffset(val)
      if offset >= iv.End() { offset -= iv.Modulus().Int() }
      minStart = intMin(minStart, offset)
    }
    return FromStartSizeInt(iv.Modulus(), minStart, iv.End()-minStart)
-/
def IntInterval.ExpandStart (iv : IntInterval) (positionDesignator : List Int) :
    Option IntInterval :=
  if iv.IsComplete || positionDesignator.isEmpty then some iv
  else
    let minStart := positionDesignator.foldl
      (fun minStart val =>
        let offset := ArrayOffset iv.Modulus val
        let offset := if offset ≥ iv.End then offset - iv.Modulus else offset
        intMin minStart offset)
      iv.start
    FromStartSizeInt iv.Modulus minStart (iv.End - minStart)

/-- `func (iv IntInterval) ExpandEnd(positionDesignator ...int) IntInterval`:

    if iv.IsComplete() || len(positionDesignator) == 0 { return iv }
    origEnd := iv.End()
    maxEnd := origEnd
    for _, val := range positionDesignator {
      minEndToContainPosition := iv.Modulus().ArrayOffset(val + 1)
      if minEndToContainPosition < iv.Start() { minEndToContainPosition += iv.Modulus().Int() }
      maxEnd = intMax(maxEnd, minEndToContainPosition)
    }
    return FromStartSizeInt(iv.Modulus(), iv.Start(), maxEnd-iv.Start())
-/
def IntInterval.ExpandEnd (iv : IntInterval) (positionDesignator : List Int) :
    Option IntInterval :=
  if iv.IsComplete || positionDesignator.isEmpty then some iv
  else
    let maxEnd := positionDesignator.foldl
      (fun maxEnd val =>
        let minEndToContainPosition := ArrayOffset iv.Modulus (val + 1)
        let minEndToContainPosition :=
          if minEndToContainPosition < iv.Start then
            minEndToContainPosition + iv.Modulus
          else minEndToContainPosition
        intMax maxEnd minEndToContainPosition)
      iv.End
    FromStartSizeInt iv.Modulus iv.Start (maxEnd - iv.Start)

/-- `func (iv IntInterval) ExpandMinimal(positionDesignator ...int) IntInterval`:

    a := iv.ExpandStart(positionDesignator...)
    b := iv.ExpandEnd(positionDesignator...)
    if a.Size() > b.Size() { return b }
    return a

A panic in either call propagates (Go evaluates `a` first). -/
def IntInterval.ExpandMinimal (iv : IntInterval) (positionDesignator : List Int) :
    Option IntInterval :=
  match iv.ExpandStart positionDesignator with
  | none => none
  | some a =>
    match iv.ExpandEnd positionDesignator with
    | none => none
    | some b => if a.Size > b.Size then some b else some a

/-- `func (iv IntInterval) normalized() IntInterval`:

    if !iv.IsComplete() { return iv }
    return FromStartSizeInt(iv.Modulus(), 0, iv.Size())
-/
def IntInterval.normalized (iv : IntInterval) : Option IntInterval :=
  if !iv.IsComplete then some iv
  else FromStartSizeInt iv.Modulus 0 iv.Size

/-- `func (iv IntInterval) EqualSets(other IntInterval) bool`:

    sizesEqual := iv.Size() == other.Size()
    if !sizesEqual { return false }
    if iv.IsEmpty() { return true }
    a := iv.normalized()
    b := other.normalized()
    return a.Start() == b.Start()
-/
def IntInterval.EqualSets (iv other : IntInterval) : Option Bool :=
  if !decide (iv.Size = other.Size) then some false
  else if iv.IsEmpty then some true
  else
    match iv.normalized, other.normalized with
    | some a, some b => some (decide (a.Start = b.Start))
    | _, _ => none

/-- Invariant satisfied by every `IntInterval` built by `FromStartSizeInt`:
positive modulus, normalized start, size between `0` and the modulus. -/
def Valid (iv : IntInterval) : Prop :=
  0 < iv.modulus ∧ 0 ≤ iv.start ∧ iv.start < iv.modulus ∧
    0 ≤ iv.size ∧ iv.size ≤ iv.modulus

instance (iv : IntInterval) : Decidable (Valid iv) :=
  inferInstanceAs (Decidable (_ ∧ _ ∧ _ ∧ _ ∧ _))

/-- The start value the claim about `EqualSets` compares: the interval's
start, with a complete interval's start replaced by `0` (the claim's words:
"after replacing the start of any complete interval by 0 for comparison
purposes only"). -/
def normStartSpec (iv : IntInterval) : Int :=
  if iv.size = iv.modulus then 0 else iv.start

/-! ## span (intervalset package test file)

`type span struct { min, max int }`, a half-open interval `[min, max)`
implementing the `Interval` capability contract. -/

/-- `type span struct { min, max int }` -/
structure span where
  min : Int
  max : Int
deriving DecidableEq

/-- `func zero() *span { return &span{} }` -/
def zeroSpan : span := ⟨0, 0⟩

/-- `func (s *span) Intersect(tInt Interval) Interval`:

    result := &span{max(s.min, t.min), min(s.max, t.max)}
    if result.min < result.max { return result }
    return zero()
-/
def span.Intersect (s t : span) : span :=
  let result : span := ⟨intMax s.min t.min, intMin s.max t.max⟩
  if result.min < result.max then result else zeroSpan

/-- `func (s *span) Before(tInt Interval) bool { return s.max <= t.min }` -/
def span.Before (s t : span) : Bool := decide (s.max ≤ t.min)

/-- `func (s *span) IsZero() bool { return s.min == 0 && s.max == 0 }` -/
def span.IsZero (s : span) : Bool := decide (s.min = 0 ∧ s.max = 0)

/-- The local closure `maybeZero` inside `(*span).Bisect`:

    maybeZero := func(min, max int) *span {
      if min == max { return zero() }
      return &span{min, max}
    }
-/
def maybeZero (mn mx : Int) : span := if mn = mx then zeroSpan else ⟨mn, mx⟩

/-- `func (s *span) Bisect(tInt Interval) (Interval, Interval)`:

    intersection := cast(s.Intersect(tInt))
    if intersection.IsZero() {
      if s.Before(tInt) { return s, zero() }
      return zero(), s
    }
    return maybeZero(s.min, intersection.min), maybeZero(intersection.max, s.max)
-/
def span.Bisect (s t : span) : span × span :=
  let intersection := s.Intersect t
  if intersection.IsZero then
    if s.Before t then (s, zeroSpan) else (zeroSpan, s)
  else
    (maybeZero s.min intersection.min, maybeZero intersection.max s.max)

/-- The set of points denoted by a span: `[min, max)`. -/
def span.mem (s : span) (x : Int) : Prop := s.min ≤ x ∧ x < s.max

instance (s : span) (x : Int) : Decidable (s.mem x) :=
  inferInstanceAs (Decidable (_ ∧ _))

/-! ## Arithmetic helper lemmas -/

theorem intMin_eq_min (a b : Int) : intMin a b = min a b := by
  simp only [intMin, min_def]
  split <;> split <;> omega

theorem intMax_eq_max (a b : Int) : intMax a b = max a b := by
  simp only [intMax, max_def]
  split <;> split <;> omega

theorem intMin_le_left (a b : Int) : intMin a b ≤ a := by
  simp only [intMin]; split <;> omega

theorem intMin_le_right (a b : Int) : intMin a b ≤ b := by
  simp only [intMin]; split <;> omega

theorem le_intMax_left (a b : Int) : a ≤ intMax a b := by
  simp only [intMax]; split <;> omega

theorem le_intMax_right (a b : Int) : b ≤ intMax a b := by
  simp only [intMax]; split <;> omega

/-- Negating the dividend negates the truncated remainder. -/
theorem tmod_neg_dividend (a b : Int) : Int.tmod (-a) b = -Int.tmod a b := by
  rw [Int.tmod_def, Int.tmod_def, Int.neg_tdiv]
  ring

/-- Bounds for the truncated remainder of a negative dividend by a positive
modulus: it lies in `(-m, 0]`. -/
theorem tmod_bounds_of_neg {a m : Int} (hm : 0 < m) (ha : a < 0) :
    -m < Int.tmod a m ∧ Int.tmod a m ≤ 0 := by
  have h1 : Int.tmod a m = -Int.tmod (-a) m := by
    rw [← tmod_neg_dividend, neg_neg]
  have h2 : 0 ≤ Int.tmod (-a) m := Int.tmod_nonneg m (by omega)
  have h3 : Int.tmod (-a) m < m := Int.tmod_lt_of_pos _ hm
  omega

/-- For a positive modulus, `ArrayOffset` lands in `[0, m)`. -/
theorem arrayOffset_range (m p : Int) (hm : 0 < m) :
    0 ≤ ArrayOffset m p ∧ ArrayOffset m p < m := by
  have h2 : Int.tmod p m < m := Int.tmod_lt_of_pos p hm
  have h3 : -m < Int.tmod p m := by
    rcases le_or_lt 0 p with hp | hp
    · have := Int.tmod_nonneg m hp; omega
    · exact (tmod_bounds_of_neg hm hp).1
  simp only [ArrayOffset, GoModulo]
  split <;> omega

/-- `ArrayOffset` is the identity on `[0, m)`. -/
theorem arrayOffset_eq_self {m p : Int} (h0 : 0 ≤ p) (h1 : p < m) :
    ArrayOffset m p = p := by
  simp only [ArrayOffset, GoModulo, Int.tmod_eq_of_lt h0 h1]
  split <;> omega

/-! ## Construction lemmas -/

/-- `FromStartSizeInt` succeeds exactly when the modulus is positive and the
requested size is nonnegative. -/
theorem fromStartSizeInt_isSome (m start size : Int) :
    (FromStartSizeInt m start size).isSome = true ↔ (0 < m ∧ 0 ≤ size) := by
  simp only [FromStartSizeInt]
  split_ifs <;> simp <;> omega

/-- Every interval built by `FromStartSizeInt` satisfies the `Valid`
invariant. -/
theorem fromStartSizeInt_valid {m start size : Int} {iv : IntInterval}
    (h : FromStartSizeInt m start size = some iv) : Valid iv := by
  simp only [FromStartSizeInt] at h
  split_ifs at h
  all_goals
    first
      | exact (Option.noConfusion h)
      | (injection h with h
         subst h
         simp only [Valid]
         exact ⟨by omega, (arrayOffset_range m start (by omega)).1,
           (arrayOffset_range m start (by omega)).2, by omega, by omega⟩)

/-! ## Fold bounds -/

theorem foldl_intMin_le_init (g : Int → Int) (ps : List Int) (init : Int) :
    ps.foldl (fun acc v => intMin acc (g v)) init ≤ init := by
  induction ps generalizing init with
  | nil => simp
  | cons v rest ih =>
    simp only [List.foldl_cons]
    exact le_trans (ih _) (intMin_le_left _ _)

theorem foldl_intMin_cons_le (g : Int → Int) (v : Int) (rest : List Int) (init : Int) :
    (v :: rest).foldl (fun acc w => intMin acc (g w)) init ≤ g v := by
  simp only [List.foldl_cons]
  exact le_trans (foldl_intMin_le_init g rest _) (intMin_le_right _ _)

theorem le_foldl_intMax_init (g : Int → Int) (ps : List Int) (init : Int) :
    init ≤ ps.foldl (fun acc v => intMax acc (g v)) init := by
  induction ps generalizing init with
  | nil => simp
  | cons v rest ih =>
    simp only [List.foldl_cons]
    exact le_trans (le_intMax_left _ _) (ih _)

theorem le_foldl_intMax_cons (g : Int → Int) (v : Int) (rest : List Int) (init : Int) :
    g v ≤ (v :: rest).foldl (fun acc w => intMax acc (g w)) init := by
  simp only [List.foldl_cons]
  exact le_trans (le_intMax_right _ _) (le_foldl_intMax_init g rest _)

/-! ## Totality of the Expand operations on valid intervals -/

theorem expandStart_isSome {iv : IntInterval} (h : Valid iv) (ps : List Int) :
    (iv.ExpandStart ps).isSome = true := by
  obtain ⟨hm, hs0, hsm, hz0, hzm⟩ := h
  cases ps with
  | nil => simp [IntInterval.ExpandStart]
  | cons v rest =>
    rcases Bool.eq_false_or_eq_true iv.IsComplete with hc | hc
    · simp [IntInterval.ExpandStart, hc]
    · unfold IntInterval.ExpandStart
      rw [if_neg (by simp [hc])]
      simp only [IntInterval.Modulus, IntInterval.Start, IntInterval.End]
      rw [fromStartSizeInt_isSome]
      refine ⟨hm, ?_⟩
      have hE := arrayOffset_range iv.modulus (iv.start + iv.size) hm
      have hv := arrayOffset_range iv.modulus v hm
      have hfold := foldl_intMin_cons_le
        (fun val =>
          if ArrayOffset iv.modulus val ≥ ArrayOffset iv.modulus (iv.start + iv.size) then
            ArrayOffset iv.modulus val - iv.modulus
          else ArrayOffset iv.modulus val)
        v rest iv.start
      simp only at hfold
      split at hfold <;> omega

theorem expandEnd_isSome {iv : IntInterval} (h : Valid iv) (ps : List Int) :
    (iv.ExpandEnd ps).isSome = true := by
  obtain ⟨hm, hs0, hsm, hz0, hzm⟩ := h
  cases ps with
  | nil => simp [IntInterval.ExpandEnd]
  | cons v rest =>
    rcases Bool.eq_false_or_eq_true iv.IsComplete with hc | hc
    · simp [IntInterval.ExpandEnd, hc]
    · unfold IntInterval.ExpandEnd
      rw [if_neg (by simp [hc])]
      simp only [IntInterval.Modulus, IntInterval.Start, IntInterval.End]
      rw [fromStartSizeInt_isSome]
      refine ⟨hm, ?_⟩
      have hv := arrayOffset_range iv.modulus (v + 1) hm
      have hfold := le_foldl_intMax_cons
        (fun val =>
          if ArrayOffset iv.modulus (val + 1) < iv.start then
            ArrayOffset iv.modulus (val + 1) + iv.modulus
          else ArrayOffset iv.modulus (val + 1))
        v rest (ArrayOffset iv.modulus (iv.start + iv.size))
      simp only at hfold
      split at hfold <;> omega

theorem expandMinimal_isSome {iv : IntInterval} (h : Valid iv) (ps : List Int) :
    (iv.ExpandMinimal ps).isSome = true := by
  have ha := expandStart_isSome h ps
  have hb := expandEnd_isSome h ps
  obtain ⟨a, hae⟩ := Option.isSome_iff_exists.mp ha
  obtain ⟨b, hbe⟩ := Option.isSome_iff_exists.mp hb
  simp only [IntInterval.ExpandMinimal, hae, hbe]
  split <;> rfl

/-- Evaluation of a successful, non-clamping construction. -/
theorem fromStartSizeInt_eval {m size : Int} (start : Int) (hm : 0 < m)
    (h0 : 0 ≤ size) (h1 : size ≤ m) :
    FromStartSizeInt m start size = some ⟨m, ArrayOffset m start, size⟩ := by
  simp only [FromStartSizeInt]
  split_ifs <;> first | rfl | omega

/-! ## Claim C6 -/

/-- Claim C6, counterexample to the claim as stated: for the negative
position `-10` with modulus `10`, the truncating remainder is `0`, and
`ArrayOffset` returns `0`, not `(position mod m) + m = 10` as the claim's
negative-position rule demands. -/
theorem arrayOffset_neg_multiple_cex :
    (-10 : Int) < 0 ∧ ArrayOffset 10 (-10) = 0 ∧
      ¬ ArrayOffset 10 (-10) = GoModulo 10 (-10) + 10 := by decide

/-- Claim C6 (amended): for every modulus `m > 0`, `ArrayOffset` returns the
position unchanged on `[0, m)`, the truncating remainder for positions
`≥ m`, and for negative positions the truncating remainder plus `m` when
that remainder is nonzero and `0` when it is zero; the result always lies
in `[0, m)`, and `ArrayOffset 10 (-11) = 9`. -/
theorem arrayOffset_normalization (m position : Int) (hm : 0 < m) :
    (0 ≤ position → position < m → ArrayOffset m position = position) ∧
    (m ≤ position → ArrayOffset m position = GoModulo m position) ∧
    (position < 0 → ¬ GoModulo m position = 0 →
      ArrayOffset m position = GoModulo m position + m) ∧
    (position < 0 → GoModulo m position = 0 → ArrayOffset m position = 0) ∧
    (0 ≤ ArrayOffset m position ∧ ArrayOffset m position < m) ∧
    ArrayOffset 10 (-11) = 9 := by
  refine ⟨fun h0 h1 => arrayOffset_eq_self h0 h1, fun h => ?_, fun h hne => ?_,
    fun h he => ?_, arrayOffset_range m position hm, by decide⟩
  · have := Int.tmod_nonneg m (le_trans (le_of_lt hm) h)
    simp only [ArrayOffset, GoModulo] at *
    split <;> omega
  · have hb := tmod_bounds_of_neg hm h
    simp only [ArrayOffset, GoModulo] at *
    split <;> omega
  · simp only [ArrayOffset, GoModulo] at *
    split <;> omega

/-- Witness for `arrayOffset_normalization` at `m = 10`, `position = -11`. -/
theorem arrayOffset_normalization_witness :
    ArrayOffset 10 (-11) = GoModulo 10 (-11) + 10 :=
  (arrayOffset_normalization 10 (-11) (by decide)).2.2.1 (by decide) (by decide)

/-! ## Claim C7 -/

/-- Claim C7: with both arguments normalized by `ArrayOffset`,
`IntervalSizeForward` returns `0` on equal offsets, `b - a` when `a < b`,
and `b - a + m` otherwise; `IntervalSizeMin` is the minimum of the two
forward sizes; and with `m = 10` the forward size from 9 to 7 is 8 while
the minimum size is 2. -/
theorem intervalSizeForward_min_spec (m a b : Int) (hm : 0 < m) :
    (ArrayOffset m a = ArrayOffset m b → IntervalSizeForward m a b = 0) ∧
    (ArrayOffset m a < ArrayOffset m b →
      IntervalSizeForward m a b = ArrayOffset m b - ArrayOffset m a) ∧
    (ArrayOffset m b < ArrayOffset m a →
      IntervalSizeForward m a b = ArrayOffset m b - ArrayOffset m a + m) ∧
    IntervalSizeMin m a b = min (IntervalSizeForward m a b) (IntervalSizeForward m b a) ∧
    IntervalSizeForward 10 9 7 = 8 ∧ IntervalSizeMin 10 9 7 = 2 := by
  refine ⟨fun h => ?_, fun h => ?_, fun h => ?_, ?_, by decide, by decide⟩
  · simp only [IntervalSizeForward, forwardDistance]
    split <;> omega
  · simp only [IntervalSizeForward, forwardDistance]
    split <;> omega
  · simp only [IntervalSizeForward, forwardDistance]
    split <;> omega
  · simp only [IntervalSizeMin, IntervalSizeForward, intMin_eq_min]

/-- Witness for `intervalSizeForward_min_spec` at `m = 10`, `a = 9`,
`b = 7`. -/
theorem intervalSizeForward_min_spec_witness :
    IntervalSizeForward 10 9 7 = ArrayOffset 10 7 - ArrayOffset 10 9 + 10 :=
  (intervalSizeForward_min_spec 10 9 7 (by decide)).2.2.1 (by decide)

/-! ## Claim C1 -/

/-- Claim C1, counterexample to the claim as stated: the modulus `0` with
nonnegative size `0` still fails, because constructing the interval
evaluates `start % 0`, a run-time panic in Go. -/
theorem fromStartSizeInt_zero_modulus_cex :
    (0 : Int) ≤ 0 ∧ (0 : Int) ≤ 0 ∧ FromStartSizeInt 0 3 0 = none := by decide

/-- Claim C1 (amended): `FromStartSizeInt m start size` succeeds exactly
when `0 < m` and `0 ≤ size` (for `m = 0` the construction divides by zero;
for `m < 0` or `size < 0` it panics explicitly); when `size > m` it
silently clamps the size to `m`; and the remaining modular-interval
operations never fail on constructed (valid) intervals. -/
theorem fromStartSizeInt_total_spec :
    (∀ m start size : Int,
      (FromStartSizeInt m start size).isSome = true ↔ (0 < m ∧ 0 ≤ size)) ∧
    (∀ m start size : Int, 0 < m → m < size →
      FromStartSizeInt m start size = some ⟨m, ArrayOffset m start, m⟩) ∧
    (∀ (iv : IntInterval) (ps : List Int), Valid iv →
      (iv.ExpandStart ps).isSome = true ∧ (iv.ExpandEnd ps).isSome = true ∧
        (iv.ExpandMinimal ps).isSome = true) := by
  refine ⟨fromStartSizeInt_isSome, fun m start size hm hs => ?_,
    fun iv ps h => ⟨expandStart_isSome h ps, expandEnd_isSome h ps,
      expandMinimal_isSome h ps⟩⟩
  simp only [FromStartSizeInt]
  split_ifs <;> first | rfl | omega

/-- Witness for `fromStartSizeInt_total_spec`: a successful clamped
construction and a successful expansion. -/
theorem fromStartSizeInt_total_spec_witness :
    (FromStartSizeInt 10 3 20).isSome = true ∧
    FromStartSizeInt 10 3 20 = some ⟨10, ArrayOffset 10 3, 10⟩ ∧
    ((IntInterval.mk 10 2 3).ExpandStart [7]).isSome = true :=
  ⟨(fromStartSizeInt_total_spec.1 10 3 20).mpr (by decide),
   fromStartSizeInt_total_spec.2.1 10 3 20 (by decide) (by decide),
   (fromStartSizeInt_total_spec.2.2 ⟨10, 2, 3⟩ [7] (by decide)).1⟩

/-! ## Claim C2 -/

/-- Claim C2 fails on the code: for the interval `[2, 5)` with modulus 10
(the set `{2, 3, 4}`), `ExpandEnd` with the single point `1` returns the
interval unchanged, which does not contain `1`, and `ExpandMinimal`
returns the same unchanged interval; `ExpandStart` does contain the
point.  A wrapping variant even returns the empty interval.  This
contradicts `ExpandEnd`'s own documentation ("changes the End position of
the interval so that it contains all of the arguments"): when
`ArrayOffset(p+1)` equals the interval's start, the wrap test
`minEndToContainPosition < iv.Start()` is strictly false and no expansion
happens. -/
theorem expandEnd_boundary_bug :
    FromStartSizeInt 10 2 3 = some ⟨10, 2, 3⟩ ∧
    (IntInterval.mk 10 2 3).ExpandEnd [1] = some ⟨10, 2, 3⟩ ∧
    (IntInterval.mk 10 2 3).ExpandMinimal [1] = some ⟨10, 2, 3⟩ ∧
    (IntInterval.mk 10 2 3).Contains 1 = false ∧
    (IntInterval.mk 10 2 3).ExpandStart [1] = some ⟨10, 1, 4⟩ ∧
    (IntInterval.mk 10 1 4).Contains 1 = true ∧
    (IntInterval.mk 10 9 9).ExpandEnd [8] = some ⟨10, 9, 0⟩ := by decide

/-! ## Claim C4 -/

/-- Claim C4 fails on the code: `RealIntInterval.Intersection` computes the
end bound with `intMax` instead of `intMin`, so intersecting `[0, 2)` with
`[1, 5)` yields `[1, 5)` — which contains `3`, a point not in `[0, 2)` —
while the conventional intersection the spec prescribes yields `[1, 2)`. -/
theorem realIntersection_uses_max_bug :
    (RealIntInterval.mk 0 2).Intersection ⟨1, 4⟩ = ⟨1, 4⟩ ∧
    RealIntersectionSpec ⟨0, 2⟩ ⟨1, 4⟩ = ⟨1, 1⟩ ∧
    (RealIntInterval.mk 0 2).Contains 3 = false ∧
    ((RealIntInterval.mk 0 2).Intersection ⟨1, 4⟩).Contains 3 = true ∧
    ¬ (RealIntInterval.mk 0 2).Intersection ⟨1, 4⟩ =
        RealIntersectionSpec ⟨0, 2⟩ ⟨1, 4⟩ := by decide

/-! ## Claim C10 -/

/-- Claim C10: `ExpandMinimal` returns the `ExpandEnd` result exactly when
the `ExpandStart` result is strictly larger in size, and otherwise (ties
included) returns the `ExpandStart` result. -/
theorem expandMinimal_chooses_smaller (iv : IntInterval) (ps : List Int)
    (a b : IntInterval) (ha : iv.ExpandStart ps = some a)
    (hb : iv.ExpandEnd ps = some b) :
    iv.ExpandMinimal ps = if a.Size > b.Size then some b else some a := by
  simp only [IntInterval.ExpandMinimal, ha, hb]

/-- Witness for `expandMinimal_chooses_smaller` on `[3, 6)` mod 10 with
point 6: `ExpandStart` gives the complete interval (size 10), `ExpandEnd`
gives size 4, so the `ExpandEnd` result is chosen. -/
theorem expandMinimal_chooses_smaller_witness :
    (IntInterval.mk 10 3 3).ExpandMinimal [6] = some ⟨10, 3, 4⟩ := by
  have h := expandMinimal_chooses_smaller ⟨10, 3, 3⟩ [6] ⟨10, 6, 10⟩ ⟨10, 3, 4⟩
    (by decide) (by decide)
  rw [h]
  decide

/-! ## Claim C5 -/

/-- On a valid interval, `normalized` succeeds and returns the interval
with its start replaced by `0` when complete, unchanged otherwise. -/
theorem normalized_of_valid {iv : IntInterval} (h : Valid iv) :
    iv.normalized = some ⟨iv.modulus, normStartSpec iv, iv.size⟩ := by
  obtain ⟨hm, hs0, hsm, hz0, hzm⟩ := h
  rcases eq_or_ne iv.size iv.modulus with he | he
  · have hc : iv.IsComplete = true := by
      simp [IntInterval.IsComplete, IntInterval.Size, he]
    simp only [IntInterval.normalized, hc, Bool.not_true, Bool.false_eq_true, if_false,
      IntInterval.Size, IntInterval.Modulus]
    rw [fromStartSizeInt_eval 0 hm hz0 hzm, arrayOffset_eq_self le_rfl hm]
    simp [normStartSpec, he]
  · have hc : iv.IsComplete = false := by
      simp [IntInterval.IsComplete, IntInterval.Size, he]
    simp [IntInterval.normalized, hc, normStartSpec, he]

/-- Claim C5, counterexample to the claim as stated: two valid empty
intervals with different (non-complete, hence not normalized) starts are
reported as equal sets, yet their sizes match while their compared starts
differ. -/
theorem equalSets_empty_cex :
    Valid ⟨10, 3, 0⟩ ∧ Valid ⟨10, 5, 0⟩ ∧
    (IntInterval.mk 10 3 0).EqualSets ⟨10, 5, 0⟩ = some true ∧
    (IntInterval.mk 10 3 0).Size = (IntInterval.mk 10 5 0).Size ∧
    ¬ normStartSpec ⟨10, 3, 0⟩ = normStartSpec ⟨10, 5, 0⟩ := by decide

/-- Claim C5 (amended): for valid intervals, `EqualSets` returns true
exactly when the sizes match and, additionally, either the receiver is
empty (empty intervals compare equal regardless of their stored starts) or
the starts match after replacing a complete interval's start by `0`; the
moduli enter only through completeness. -/
theorem equalSets_amended (a b : IntInterval) (ha : Valid a) (hb : Valid b) :
    a.EqualSets b = some true ↔
      (a.Size = b.Size ∧ (a.Size = 0 ∨ normStartSpec a = normStartSpec b)) := by
  rcases eq_or_ne a.size b.size with hs | hs
  · rcases eq_or_ne a.size 0 with h0 | h0
    · have b0 : b.size = 0 := by omega
      simp [IntInterval.EqualSets, IntInterval.IsEmpty, IntInterval.Size, hs, h0, b0]
    · have b0 : ¬ b.size = 0 := by omega
      simp [IntInterval.EqualSets, IntInterval.IsEmpty, IntInterval.Size,
        IntInterval.Start, hs, h0, b0, normalized_of_valid ha, normalized_of_valid hb]
  · simp [IntInterval.EqualSets, IntInterval.Size, hs]

/-- Witness for `equalSets_amended`: two complete intervals with different
stored starts denote the same set. -/
theorem equalSets_amended_witness :
    (IntInterval.mk 7 4 7).EqualSets ⟨7, 0, 7⟩ = some true :=
  (equalSets_amended ⟨7, 4, 7⟩ ⟨7, 0, 7⟩ (by decide) (by decide)).mpr (by decide)

/-! ## Claims C3 and C9: the real-interval decomposition -/

/-- Closed-form evaluation of `realIntervals`. -/
theorem realIntervals_eval (iv : IntInterval) :
    iv.realIntervals =
      if iv.size = 0 then (⟨0, 0⟩, ⟨0, 0⟩)
      else if iv.modulus - iv.start < iv.size then
        (⟨iv.start, iv.modulus - iv.start⟩, ⟨0, iv.size - (iv.modulus - iv.start)⟩)
      else (⟨iv.start, iv.size⟩, ⟨0, 0⟩) := by
  simp only [IntInterval.realIntervals, IntInterval.IsEmpty, IntInterval.Size,
    IntInterval.Start, RealFromStartSize, decide_eq_true_eq, gt_iff_lt]
  split_ifs <;> simp_all [Prod.mk.injEq, RealIntInterval.mk.injEq]

/-- Claim C3: for a valid modular interval, `RealIntervals` returns no part
when the interval is empty, the single part `[start, start+size)` when it
does not cross the modulus boundary, and the two parts `[start, m)` and
`[0, size - (m - start))` when it does; and the modulus-10 interval with
start 9, size 4 decomposes into `[9, 10)` and `[0, 3)`, containing 2 and 9
but not 3. -/
theorem realIntervals_decomposition (iv : IntInterval) (h : Valid iv) :
    (iv.size = 0 → iv.RealIntervals = []) ∧
    (0 < iv.size → iv.start + iv.size ≤ iv.modulus →
      iv.RealIntervals = [RealFromStartSize iv.start iv.size]) ∧
    (iv.modulus < iv.start + iv.size →
      iv.RealIntervals = [RealFromStartSize iv.start (iv.modulus - iv.start),
        RealFromStartSize 0 (iv.size - (iv.modulus - iv.start))]) ∧
    (FromStartSizeInt 10 9 4 = some ⟨10, 9, 4⟩ ∧
      (IntInterval.mk 10 9 4).RealIntervals = [RealFromStartSize 9 1, RealFromStartSize 0 3] ∧
      (IntInterval.mk 10 9 4).Contains 2 = true ∧
      (IntInterval.mk 10 9 4).Contains 9 = true ∧
      (IntInterval.mk 10 9 4).Contains 3 = false) := by
  obtain ⟨hm, hs0, hsm, hz0, hzm⟩ := h
  refine ⟨fun h0 => ?_, fun h1 h2 => ?_, fun h3 => ?_, by decide⟩
  · simp [IntInterval.RealIntervals, realIntervals_eval, h0,
      RealIntInterval.IsEmpty, RealIntInterval.Size]
  · have e0 : ¬ iv.size = 0 := by omega
    have e1 : ¬ (iv.modulus - iv.start < iv.size) := by omega
    simp [IntInterval.RealIntervals, realIntervals_eval, e0, e1,
      RealIntInterval.IsEmpty, RealIntInterval.Size, RealFromStartSize]
  · have e0 : ¬ iv.size = 0 := by omega
    have e1 : iv.modulus - iv.start < iv.size := by omega
    have e2 : ¬ (iv.size - (iv.modulus - iv.start) = 0) := by omega
    simp [IntInterval.RealIntervals, realIntervals_eval, e0, e1, e2,
      RealIntInterval.IsEmpty, RealIntInterval.Size, RealFromStartSize]

/-- Witness for `realIntervals_decomposition`: the crossing case at
modulus 10, start 9, size 4. -/
theorem realIntervals_decomposition_witness :
    (IntInterval.mk 10 9 4).RealIntervals =
      [RealFromStartSize 9 1, RealFromStartSize 0 3] :=
  (realIntervals_decomposition ⟨10, 9, 4⟩ (by decide)).2.2.1 (by decide)

/-- Claim C9: on a valid interval the two decomposition parts are disjoint
subsets of `[0, m)`; the first part, when non-empty, starts at the
interval's start and the second at 0; the part sizes sum to the interval
size; and `ContainsExactInt` rejects every integer outside `[0, m)`. -/
theorem realIntervals_invariants (iv : IntInterval) (h : Valid iv) :
    (∀ x : Int, ¬(iv.realIntervals.1.Contains x = true ∧
      iv.realIntervals.2.Contains x = true)) ∧
    (∀ x : Int, iv.realIntervals.1.Contains x = true → 0 ≤ x ∧ x < iv.modulus) ∧
    (∀ x : Int, iv.realIntervals.2.Contains x = true → 0 ≤ x ∧ x < iv.modulus) ∧
    (iv.realIntervals.1.IsEmpty = false → iv.realIntervals.1.start = iv.Start) ∧
    (iv.realIntervals.2.IsEmpty = false → iv.realIntervals.2.start = 0) ∧
    iv.realIntervals.1.Size + iv.realIntervals.2.Size = iv.Size ∧
    (∀ i : Int, i < 0 ∨ iv.modulus ≤ i → iv.ContainsExactInt i = false) := by
  obtain ⟨hm, hs0, hsm, hz0, hzm⟩ := h
  refine ⟨fun x => ?_, fun x => ?_, fun x => ?_, ?_, ?_, ?_, fun i hi => ?_⟩
  all_goals
    simp only [IntInterval.ContainsExactInt, IntInterval.Size, IntInterval.Start,
      realIntervals_eval, RealIntInterval.Contains, RealIntInterval.IsEmpty,
      RealIntInterval.Size, RealIntInterval.Start, RealIntInterval.End]
  all_goals split_ifs <;> simp_all <;> omega

/-- Witness for `realIntervals_invariants`: the sizes of the two parts of
the wrapping interval with modulus 7, start 5, size 4 sum to 4. -/
theorem realIntervals_invariants_witness :
    (IntInterval.mk 7 5 4).realIntervals.1.Size +
      (IntInterval.mk 7 5 4).realIntervals.2.Size = (IntInterval.mk 7 5 4).Size :=
  (realIntervals_invariants ⟨7, 5, 4⟩ (by decide)).2.2.2.2.2.1

/-! ## Claim C8 -/

/-- Claim C8: for valid spans, `Bisect` splits the receiver into the part
of it strictly before the overlap with the argument and the part strictly
after that overlap — together the two parts hold exactly the points of the
set difference `s` minus `t`, every point of the lower part lies strictly
before every point of the overlap, and every point of the upper part lies
strictly after it. -/
theorem span_bisect_difference (s t : span) (hs : s.min ≤ s.max)
    (ht : t.min ≤ t.max) :
    (∀ x : Int, ((s.Bisect t).1.mem x ∨ (s.Bisect t).2.mem x) ↔
      (s.mem x ∧ ¬ t.mem x)) ∧
    (∀ x y : Int, (s.Bisect t).1.mem x → (s.Intersect t).mem y → x < y) ∧
    (∀ x y : Int, (s.Bisect t).2.mem x → (s.Intersect t).mem y → y < x) := by
  refine ⟨fun x => ?_, fun x y hx hy => ?_, fun x y hx hy => ?_⟩
  all_goals
    simp only [span.Bisect, span.Intersect, span.Before, span.IsZero, maybeZero,
      zeroSpan, span.mem, intMin, intMax, decide_eq_true_eq, gt_iff_lt] at *
  all_goals split_ifs at * <;> dsimp only at * <;> omega

/-- Witness for `span_bisect_difference`: bisecting `[0, 10)` with `[3, 5)`
at the point 2. -/
theorem span_bisect_difference_witness :
    (((span.mk 0 10).Bisect ⟨3, 5⟩).1.mem 2 ∨ ((span.mk 0 10).Bisect ⟨3, 5⟩).2.mem 2) ↔
      ((span.mk 0 10).mem 2 ∧ ¬ (span.mk 3 5).mem 2) :=
  (span_bisect_difference ⟨0, 10⟩ ⟨3, 5⟩ (by decide) (by decide)).1 2

end GoIntervals
